import Mathlib

/-!
# QuickArchiver: rule matching and rule store

A shallow embedding of `src/content/scripts/quickarchiver.js`.

* JavaScript strings are lists of characters (`JSString`); a character is a
  Unicode scalar value, the UTF-16 code units of the engine are not modelled.
* `undefined` is `none`; a thrown exception is `Except.error`.
* The case folding of the `i` flag is a table of the engine and not part of the
  script; it is the parameter `canon` of the functions that depend on it.
* The two regular expressions the script uses are run by a small backtracking
  matcher (`Re.run`) that follows the ECMAScript matching rules for the
  constructs that occur: character sets, `^`, `$`, sequence, alternation and
  the greedy star.
* The `async` functions run one after another; they are modelled as functions
  from the state of the `quickarchiver` object (and of the storage area) to the
  new state and the resolved value.
-/

namespace QuickArchiver

/-! ## Strings and errors -/

/-- A JavaScript string. -/
abbrev JSString := List Char

/-- The exceptions that the modelled code can raise. -/
inductive JSError where
  | typeError
  | syntaxError
  deriving DecidableEq, Repr

deriving instance DecidableEq for Except

/-! ## Regular expressions -/

/-- The regular expression constructs used by the script.  A character set is
given by its membership test. -/
inductive Re where
  | empty : Re
  | assertStart : Re
  | assertEnd : Re
  | set (accepts : Char → Bool) : Re
  | seq (a b : Re) : Re
  | alt (a b : Re) : Re
  | star (a : Re) : Re

/-- A position of the matcher: whether it is at index 0 of the input, and the
input that is still to be read. -/
abbrev Pos := Bool × JSString

/-- The greedy star: each round runs the body once from the current position,
keeps the results that consumed at least one character (an empty round is a
failure in ECMAScript), and tries to go on from each of them before it falls
back to stopping here.  `fuel` bounds the number of rounds. -/
def starLoop (body : Pos → List Pos) : Nat → Pos → List Pos
  | 0, p => [p]
  | fuel + 1, p =>
    (((body p).filter fun q => decide (q.2.length < p.2.length)).flatMap
      (starLoop body fuel)) ++ [p]

/-- All the ways in which `r` matches at a position, as the list of end
positions in the order in which a backtracking matcher tries them. -/
def Re.run : Re → Pos → List Pos
  | .empty => fun p => [p]
  | .assertStart => fun p => if p.1 then [p] else []
  | .assertEnd => fun p => if p.2.isEmpty then [p] else []
  | .set accepts => fun p =>
    match p.2 with
    | [] => []
    | c :: rest => if accepts c then [(false, rest)] else []
  | .seq a b => fun p => (a.run p).flatMap b.run
  | .alt a b => fun p => a.run p ++ b.run p
  | .star a => fun p => starLoop a.run p.2.length p

/-- The first match of `r` that starts exactly at the position, if any. -/
def Re.matchAt (r : Re) (p : Pos) : Option Pos := (r.run p).head?

/-- Search for a match from the position on, start index by start index. -/
def Re.search (r : Re) : Bool → JSString → Bool
  | atStart, [] => (r.matchAt (atStart, [])).isSome
  | atStart, c :: rest => (r.matchAt (atStart, c :: rest)).isSome || r.search false rest

/-- `RegExp.prototype.test` for a regular expression without the `g` flag. -/
def Re.test (r : Re) (s : JSString) : Bool := r.search true s

/-- The line terminators, which `.` does not match (no `s` flag). -/
def isLineTerminator (c : Char) : Bool :=
  c.toNat == 0x0A || c.toNat == 0x0D || c.toNat == 0x2028 || c.toNat == 0x2029

/-- The set of `.`. -/
def dotSet : Re := .set fun c => !isLineTerminator c

/-- The set of a pattern character under the `i` flag: a character is accepted
when its canonical form is that of the pattern character.  `canon` is the
engine's `Canonicalize` (simple upper-casing). -/
def litSet (canon : Char → Char) (c : Char) : Re := .set fun ch => canon ch == canon c

/-- The fourteen syntax characters of a pattern. -/
def syntaxChars : List Char :=
  ['^', '$', '\\', '.', '*', '+', '?', '(', ')', '[', ']', '{', '}', '|']

/-- After a backslash these characters stand for themselves (identity escape):
the syntax characters, `/`, and `=`, `!`, `:`. -/
def identityEscapes : List Char := syntaxChars ++ ['/', '=', '!', ':']

/-- The terms of a pattern source, before quantifiers are attached. -/
inductive Tok where
  | atom (r : Re) : Tok
  | assertion (r : Re) : Tok
  | starMark : Tok

/-- Read a pattern source into terms.  The result is `none` when the source uses
anything other than literal characters, identity escapes, `.`, `*`, `^` and
`$`. -/
def lexPattern (canon : Char → Char) : Bool → JSString → Option (List Tok)
  | true, [] => none
  | false, [] => some []
  | true, c :: rest =>
    if c ∈ identityEscapes then
      (lexPattern canon false rest).map fun ts => Tok.atom (litSet canon c) :: ts
    else none
  | false, c :: rest =>
    if c = '\\' then lexPattern canon true rest
    else if c = '.' then (lexPattern canon false rest).map fun ts => Tok.atom dotSet :: ts
    else if c = '*' then (lexPattern canon false rest).map fun ts => Tok.starMark :: ts
    else if c = '^' then
      (lexPattern canon false rest).map fun ts => Tok.assertion Re.assertStart :: ts
    else if c = '$' then
      (lexPattern canon false rest).map fun ts => Tok.assertion Re.assertEnd :: ts
    else if c ∈ syntaxChars then none
    else (lexPattern canon false rest).map fun ts => Tok.atom (litSet canon c) :: ts

/-- Attach each `*` to the atom before it and chain the terms.  A `*` with no
atom before it is a syntax error. -/
def buildPattern : List Tok → Option Re
  | [] => some Re.empty
  | Tok.atom r :: Tok.starMark :: rest => (buildPattern rest).map fun k => Re.seq (Re.star r) k
  | Tok.atom r :: rest => (buildPattern rest).map fun k => Re.seq r k
  | Tok.assertion r :: rest => (buildPattern rest).map fun k => Re.seq r k
  | Tok.starMark :: _ => none

/-- The constructor `new RegExp(source, 'i')`, for the pattern sources that the
script builds; `none` is an exception of the constructor. -/
def newRegExp (canon : Char → Char) (source : JSString) : Option Re :=
  (lexPattern canon false source).bind buildPattern

/-! ## The pattern matcher -/

/-- `x.split("*")`. -/
def splitStar : JSString → List JSString
  | [] => [[]]
  | c :: rest =>
    match splitStar rest with
    | [] => [[]]
    | seg :: segs => if c = '*' then [] :: seg :: segs else (c :: seg) :: segs

/-- The characters of the class `[.*+?^=!:${}()|\[\]\/\\]`. -/
def escapeClass : List Char :=
  ['.', '*', '+', '?', '^', '=', '!', ':', '$', '{', '}', '(', ')', '|', '[', ']', '/', '\\']

/-- `escapeRegex`: put a backslash before every character of the class. -/
def escapeRegex (s : JSString) : JSString :=
  s.flatMap fun c => if c ∈ escapeClass then ['\\', c] else [c]

/-- The two default wildcards of `findMatch`.  `value.substring(-1)` is the
whole of `value`, so the second test only leaves `"*"` as it is. -/
def addDefaultWildcards (value : JSString) : JSString :=
  let value := if value.take 1 ≠ ['*'] then '*' :: value else value
  if value ≠ ['*'] then value ++ ['*'] else value

/-- The source of the regular expression that `findMatch` builds. -/
def matchSource (value : JSString) : JSString :=
  ['^'] ++ List.intercalate ['.', '*'] ((splitStar (addDefaultWildcards value)).map escapeRegex)
    ++ ['$']

/-- `findMatch(string, value)`.  `string` is `none` when it is not a string;
`value` is `none` when it is `undefined`, and then `value.substring` throws. -/
def findMatch (canon : Char → Char) (string : Option JSString) (value : Option JSString) :
    Except JSError Bool :=
  match string with
  | none => .ok false
  | some s =>
    match value with
    | none => .error .typeError
    | some v =>
      match newRegExp canon (matchSource v) with
      | none => .error .syntaxError
      | some re => .ok (re.test s)

/-- What `escapeRegex`, the split at `*` and the join with `.*` make of one
character of the pattern. -/
def charSource (c : Char) : JSString :=
  if c = '*' then ['.', '*'] else if c ∈ escapeClass then ['\\', c] else [c]

/-- The terms that one character of the pattern stands for. -/
def charToks (canon : Char → Char) (c : Char) : List Tok :=
  if c = '*' then [Tok.atom dotSet, Tok.starMark] else [Tok.atom (litSet canon c)]

/-- The regular expression of a pattern between `^` and `$`: `.*` for each `*`,
the set of the character for any other character. -/
def compilePattern (canon : Char → Char) : JSString → Re
  | [] => .seq .assertEnd .empty
  | c :: pattern =>
    if c = '*' then .seq (.star dotSet) (compilePattern canon pattern)
    else .seq (litSet canon c) (compilePattern canon pattern)

/-- The wildcard `*` in front of the rest of a pattern: the rest matches here,
or the `*` takes one more character that `any` admits. -/
def wildcardTail (any : Char → Bool) (rest : JSString → Bool) : JSString → Bool
  | [] => rest []
  | c :: s => rest (c :: s) || (any c && wildcardTail any rest s)

/-- Wildcard matching of a whole string: `*` stands for a sequence, possibly
empty, of characters that `any` admits, and every other character of the
pattern stands for itself up to `canon`. -/
def wildcardMatch (any : Char → Bool) (canon : Char → Char) : JSString → JSString → Bool
  | [] => fun s => s.isEmpty
  | c :: pattern => fun s =>
    if c = '*' then wildcardTail any (wildcardMatch any canon pattern) s
    else
      match s with
      | [] => false
      | ch :: s => canon ch == canon c && wildcardMatch any canon pattern s

/-- The matcher in the words of the spec: the pattern is wrapped in a leading
and a trailing `*`, `*` matches any sequence of characters, all other
characters are literal, and the comparison ignores case. -/
def specMatch (canon : Char → Char) (string pattern : JSString) : Bool :=
  wildcardMatch (fun _ => true) canon ('*' :: pattern ++ ['*']) string

/-- An upper-casing of the ASCII letters, used to run examples. -/
def asciiCanon (c : Char) : Char := c.toUpper

/-! ## The address extractor -/

/-- The set of one character (no `i` flag). -/
def chr (c : Char) : Re := .set fun ch => ch == c

/-- The quantifier `+`. -/
def Re.plus (a : Re) : Re := .seq a (.star a)

/-- The quantifier `?`. -/
def Re.opt (a : Re) : Re := .alt a .empty

/-- The class `\s`: white space and line terminators. -/
def isWhiteSpace (c : Char) : Bool :=
  c.toNat == 0x09 || c.toNat == 0x0B || c.toNat == 0x0C || c.toNat == 0x20 ||
  c.toNat == 0xA0 || c.toNat == 0x1680 || (0x2000 ≤ c.toNat && c.toNat ≤ 0x200A) ||
  c.toNat == 0x202F || c.toNat == 0x205F || c.toNat == 0x3000 || c.toNat == 0xFEFF ||
  isLineTerminator c

/-- The class `[^<>()[\]\\.,;:\s@\"]`. -/
def atomSet : Re :=
  .set fun c =>
    !(c ∈ ['<', '>', '(', ')', '[', ']', '\\', '.', ',', ';', ':', '@', '"'] || isWhiteSpace c)

/-- The class `[0-9]`. -/
def digitSet : Re := .set fun c => '0' ≤ c && c ≤ '9'

/-- The class `[a-zA-Z]`. -/
def alphaSet : Re := .set fun c => ('a' ≤ c && c ≤ 'z') || ('A' ≤ c && c ≤ 'Z')

/-- The class `[a-zA-Z\-0-9]`. -/
def labelSet : Re :=
  .set fun c => ('a' ≤ c && c ≤ 'z') || ('A' ≤ c && c ≤ 'Z') || c == '-' || ('0' ≤ c && c ≤ '9')

/-- The group `[0-9]{1,3}`, longest first. -/
def octetRe : Re := .seq digitSet (Re.opt (.seq digitSet (Re.opt digitSet)))

/-- The local part `([^...]+(\.[^...]+)*)|(\".+\")`. -/
def localRe : Re :=
  .alt (.seq atomSet.plus (.star (.seq (chr '.') atomSet.plus)))
    (.seq (chr '"') (.seq dotSet.plus (chr '"')))

/-- The domain `(\[[0-9]{1,3}\.[0-9]{1,3}\.[0-9]{1,3}\.[0-9]{1,3}\])|(([a-zA-Z\-0-9]+\.)+[a-zA-Z]{2,})`. -/
def domainRe : Re :=
  .alt
    (.seq (chr '[') (.seq octetRe (.seq (chr '.') (.seq octetRe (.seq (chr '.')
      (.seq octetRe (.seq (chr '.') (.seq octetRe (chr ']')))))))))
    (.seq (Re.plus (.seq labelSet.plus (chr '.'))) (.seq alphaSet (.seq alphaSet (.star alphaSet))))

/-- The regular expression of `parseEmail`: local part, `@`, domain. -/
def emailRe : Re := .seq localRe (.seq (chr '@') domainRe)

/-- The matches that `String.prototype.match` collects for a regular expression
with the `g` flag: the first match from the current index on, then the first
one from the end of that match on, and so on.  `skip` counts the characters
that still belong to the last match; after an empty match the search moves on
by one character. -/
def Re.matchAll (r : Re) : Nat → Bool → JSString → List JSString
  | 0, atStart, [] => if (r.matchAt (atStart, [])).isSome then [[]] else []
  | _ + 1, _, [] => []
  | skip + 1, _, _ :: rest => r.matchAll skip false rest
  | 0, atStart, c :: rest =>
    match r.matchAt (atStart, c :: rest) with
    | some (_, after) =>
      let n := (c :: rest).length - after.length
      (c :: rest).take n :: r.matchAll (n - 1) false rest
    | none => r.matchAll 0 false rest

/-- `parseEmail(string)`.  `string.match` returns `null` when nothing matches;
`string` is `none` when it is `undefined`, and then `string.match` throws. -/
def parseEmail (string : Option JSString) : Except JSError JSString :=
  match string with
  | none => .error .typeError
  | some s =>
    let email := emailRe.matchAll 0 true s
    if email.isEmpty then .ok []
    else if email.length > 1 then .ok (email.getD (email.length - 1) [])
    else .ok (email.getD 0 [])

/-! ## Messages and rules -/

/-- A folder object of the mail client.  Every property may be missing: the
folder of the default rule is `{}`. -/
structure Folder where
  accountId : Option JSString
  path : Option JSString
  name : Option JSString
  type : Option JSString
  deriving DecidableEq, Repr

/-- The object `{}`. -/
def Folder.emptyObject : Folder := ⟨none, none, none, none⟩

/-- A header of a message as the script sees it: missing, a string, or an array
of strings. -/
inductive Header where
  | absent
  | str (s : JSString)
  | list (xs : List JSString)
  deriving DecidableEq, Repr

/-- The properties of a message that the script reads. -/
structure Message where
  author : Header
  recipients : Header
  subject : Header
  folder : Folder
  deriving DecidableEq, Repr

/-- The header names that the script passes to `getMessageHeaderValue`. -/
inductive HeaderType where
  | author
  | recipients
  | subject
  deriving DecidableEq, Repr

/-- `message[type]`. -/
def Message.header (message : Message) : HeaderType → Header
  | .author => message.author
  | .recipients => message.recipients
  | .subject => message.subject

/-- `typeof (header) === "string"`. -/
def Header.isString : Header → Bool
  | .str _ => true
  | _ => false

/-- `header[0]`: the first character of a string, the first element of an
array (both `undefined` when there is none); reading it from `undefined`
throws. -/
def Header.first : Header → Except JSError (Option JSString)
  | .absent => .error .typeError
  | .str s => .ok (s.head?.map fun c => [c])
  | .list xs => .ok xs.head?

/-- `getMessageHeaderValue(message, type)`.  The result `none` is `undefined`.
The `else if` tests the negation of the `if`, so one of the two assignments is
always made. -/
def getMessageHeaderValue (message : Message) (type : HeaderType) :
    Except JSError (Option JSString) :=
  (match message.header type with
    | .str s => .ok (some s)
    | h => h.first) >>= fun string =>
  match type with
  | .author => (parseEmail string).map some
  | .recipients => (parseEmail string).map some
  | .subject => .ok string

/-- A rule object.  A property that is `none` is `undefined`; created rules
have all seven, imported ones need not. -/
structure Rule where
  «from» : Option JSString
  «to» : Option JSString
  subject : Option JSString
  activeFrom : Option Bool
  activeTo : Option Bool
  activeSubject : Option Bool
  folder : Option Folder
  deriving DecidableEq, Repr

/-- The initial value of `defaultRule`. -/
def defaultRuleTemplate : Rule :=
  ⟨some [], some [], some [], some false, some false, some false, some Folder.emptyObject⟩

/-- The object without properties. -/
def Rule.emptyObject : Rule := ⟨none, none, none, none, none, none, none⟩

/-- A flag counts as set when it is `true`. -/
def truthy (flag : Option Bool) : Bool := flag == some true

/-! ## The rule store -/

/-- The state of the script: `this.rules`, `this.defaultRule`, and the record
`rules` of the storage area (`none` when it has never been written).  The
initial `{}` of `this.rules` is the empty list. -/
structure State where
  rules : List Rule
  defaultRule : Rule
  storage : Option (List Rule)
  deriving DecidableEq, Repr

/-- The state when the script starts, with a given storage area. -/
def State.initial (storage : Option (List Rule)) : State := ⟨[], defaultRuleTemplate, storage⟩

/-- `loadRules`. -/
def loadRules (st : State) : State :=
  match st.storage with
  | none => { st with rules := [] }
  | some stored => { st with rules := stored }

/-- `saveRules`: write the list, then load it again. -/
def saveRules (st : State) : State := loadRules { st with storage := some st.rules }

/-- `this.rules.rules`: neither `{}` nor an array has a property `rules`. -/
def rulesProperty (_ : List Rule) : Option (List Rule) := none

/-- `initRules`: loads whenever `this.rules.rules` is `undefined`. -/
def initRules (st : State) : State :=
  if (rulesProperty st.rules).isNone then loadRules st else st

/-- The quick check of `importRules`: `false` at the first element that lacks
one of the four keys. -/
def importCheck : List Rule → Bool
  | [] => true
  | rule :: rest =>
    if rule.«from».isNone || rule.«to».isNone || rule.subject.isNone || rule.folder.isNone then false
    else importCheck rest

/-- `importRules(importData)`. -/
def importRules (st : State) (importData : List Rule) : State × Bool :=
  if importCheck importData then (saveRules { st with rules := importData }, true)
  else (st, false)

/-- The loop `for (let key in target) if (typeof (rule[key]) !== "undefined")
target[key] = rule[key]` over the seven keys of the default rule. -/
def assignDefined (target rule : Rule) : Rule :=
  { «from» := if rule.«from».isSome then rule.«from» else target.«from»
    «to» := if rule.«to».isSome then rule.«to» else target.«to»
    subject := if rule.subject.isSome then rule.subject else target.subject
    activeFrom := if rule.activeFrom.isSome then rule.activeFrom else target.activeFrom
    activeTo := if rule.activeTo.isSome then rule.activeTo else target.activeTo
    activeSubject :=
      if rule.activeSubject.isSome then rule.activeSubject else target.activeSubject
    folder := if rule.folder.isSome then rule.folder else target.folder }

/-- `createRule(rule)`.  `newRule` is `this.defaultRule` itself, not a copy, so
the assignments of the loop change `this.defaultRule`; the list that is loaded
after the save holds copies. -/
def createRule (st : State) (rule : Rule) : State × Nat :=
  let st := initRules st
  let newRule := assignDefined st.defaultRule rule
  let st := { st with defaultRule := newRule, rules := st.rules ++ [newRule] }
  let st := saveRules st
  (st, st.rules.length - 1)

/-- `updateRule(index, rule)`, for an index that is in the list or one past its
end; a larger index would leave holes in the array, which a list of rules does
not have, and the result is `none`. -/
def updateRule (st : State) (index : Nat) (rule : Rule) : Option (State × Nat) :=
  let st := initRules st
  let updateRule := assignDefined st.defaultRule rule
  if index < st.rules.length then
    let st := { st with defaultRule := updateRule, rules := st.rules.set index updateRule }
    some (saveRules st, index)
  else if index = st.rules.length then
    let st := { st with defaultRule := updateRule, rules := st.rules ++ [updateRule] }
    some (saveRules st, index)
  else none

/-- `getRule(index)`: the rule and the index that is attached to it; setting
`index` on `undefined` throws. -/
def getRule (st : State) (index : Nat) : Except JSError (State × (Rule × Nat)) :=
  let st := initRules st
  match st.rules.get? index with
  | none => .error .typeError
  | some rule => .ok (st, (rule, index))

/-- `delete array[index]`: the slot becomes empty. -/
def deleteSlot : List (Option Rule) → Nat → List (Option Rule)
  | [], _ => []
  | _ :: rest, 0 => none :: rest
  | slot :: rest, index + 1 => slot :: deleteSlot rest index

/-- `array.filter(element => element != null)`. -/
def filterNotNull : List (Option Rule) → List Rule
  | [] => []
  | none :: rest => filterNotNull rest
  | some rule :: rest => rule :: filterNotNull rest

/-- `deleteRule(index)`. -/
def deleteRule (st : State) (index : Nat) : State × Nat :=
  let st := initRules st
  let st := { st with rules := filterNotNull (deleteSlot (st.rules.map some) index) }
  (saveRules st, index)

/-! ## The rule evaluator -/

/-- One of the three steps of the loop body of `findRule`:
`if (active && headerIsString && findMatch(header, pattern)) match = true;
else if (active) match = false;`.  `headerIsString` is evaluated only when the
flag is set, and the header value and `findMatch` only when it holds. -/
def voteStep (canon : Char → Char) (active : Option Bool) (headerIsString : Except JSError Bool)
    (headerValue : Except JSError (Option JSString)) (pattern : Option JSString)
    (matchFlag : Bool) : Except JSError Bool :=
  if truthy active then
    headerIsString >>= fun isString =>
    if isString then headerValue >>= fun string => findMatch canon string pattern
    else .ok false
  else .ok matchFlag

/-- The body of the loop of `findRule` up to `if (match)`: the value of `match`
after the three steps, from its value at the start of the iteration. -/
def ruleVote (canon : Char → Char) (message : Message) (rule : Rule) (matchFlag : Bool) :
    Except JSError Bool :=
  voteStep canon rule.activeFrom (.ok message.author.isString)
      (getMessageHeaderValue message .author) rule.«from» matchFlag >>= fun matchFlag =>
  voteStep canon rule.activeTo (message.recipients.first.map Option.isSome)
      (getMessageHeaderValue message .recipients) rule.«to» matchFlag >>= fun matchFlag =>
  voteStep canon rule.activeSubject (.ok message.subject.isString)
      (getMessageHeaderValue message .subject) rule.subject matchFlag

/-- The loop of `findRule` from index `i` on.  `match` is declared before the
loop, so its value goes from one iteration to the next. -/
def findRuleLoop (canon : Char → Char) (message : Message) :
    List Rule → Nat → Bool → Except JSError (Option (Rule × Nat))
  | [], _, _ => .ok none
  | rule :: rest, i, matchFlag =>
    match ruleVote canon message rule matchFlag with
    | .error e => .error e
    | .ok matchFlag =>
      if matchFlag then .ok (some (rule, i)) else findRuleLoop canon message rest (i + 1) matchFlag

/-- A rule qualifies for a message when the loop body, run on this rule alone
with `match` at its initial value `false`, ends with `match` set. -/
def Rule.qualifies (canon : Char → Char) (message : Message) (rule : Rule) : Prop :=
  ruleVote canon message rule false = .ok true

instance (canon : Char → Char) (message : Message) (rule : Rule) :
    Decidable (rule.qualifies canon message) := by
  unfold Rule.qualifies
  infer_instance

/-- `findRule(message)`: the rule with its index, or `none` for `false`; an
exception in the loop is caught and gives `false`. -/
def findRule (canon : Char → Char) (st : State) (message : Message) :
    State × Option (Rule × Nat) :=
  let st := initRules st
  match findRuleLoop canon message st.rules 0 false with
  | .ok result => (st, result)
  | .error _ => (st, none)

/-! ## The automatic rule -/

/-- `createDefaultRule(message)`: the index of the new rule, or `none` for
`false`. -/
def createDefaultRule (st : State) (message : Message) : Except JSError (State × Option Nat) :=
  if message.folder.type = some "inbox".toList then .ok (st, none)
  else if message.folder.type = some "trash".toList then .ok (st, none)
  else
    getMessageHeaderValue message .author >>= fun author =>
    getMessageHeaderValue message .recipients >>= fun recipients =>
    getMessageHeaderValue message .subject >>= fun subject =>
    let created := createRule st
      { activeFrom := some true, «from» := author, «to» := recipients, subject := subject,
        folder := some message.folder, activeTo := none, activeSubject := none }
    .ok (created.1, some created.2)

/-- `handleMovedMessages(messages)`. -/
def handleMovedMessages (canon : Char → Char) : State → List Message → Except JSError State
  | st, [] => .ok st
  | st, message :: rest =>
    let found := findRule canon st message
    match found.2 with
    | some _ => handleMovedMessages canon found.1 rest
    | none =>
      match createDefaultRule found.1 message with
      | .error e => .error e
      | .ok created => handleMovedMessages canon created.1 rest

/-- The strings of the list occur in the text one after the other without
overlap: the text is a gap, the first string, and a rest in which the other
strings occur in the same way. -/
inductive OccurInOrder : List JSString → JSString → Prop where
  | nil (text : JSString) : OccurInOrder [] text
  | cons (gap m rest : JSString) (ms : List JSString) :
    OccurInOrder ms rest → OccurInOrder (m :: ms) (gap ++ m ++ rest)

/-! ## The messages and stores of the learning step -/

/-- The three patterns of the rule are strings. -/
def Rule.hasStringPatterns (rule : Rule) : Bool :=
  rule.«from».isSome && rule.«to».isSome && rule.subject.isSome

/-- The header is an array with a first element. -/
def Header.hasFirstElement : Header → Bool
  | .list (_ :: _) => true
  | _ => false

/-- The author and the subject of the message are strings, and the recipients
are a string or an array with a first element. -/
def Message.hasStringHeaders (message : Message) : Bool :=
  message.author.isString && message.subject.isString &&
    (message.recipients.isString || message.recipients.hasFirstElement)

/-- The value that `parseEmail` returns for a string. -/
def lastAddress (s : JSString) : JSString := (emailRe.matchAll 0 true s).getLast?.getD []

/-- The string that `getMessageHeaderValue` reads from a header that is a string
or an array with a first element, before `parseEmail`. -/
def Header.text : Header → JSString
  | .str s => s
  | .list (x :: _) => x
  | _ => []

/-! ## Example data -/

/-- The rule R0 of the spec: sender `*alice*`. -/
def ruleAlice : Rule :=
  { defaultRuleTemplate with activeFrom := some true, «from» := some "*alice*".toList }

/-- The rule R1 of the spec: subject `*invoice*`. -/
def ruleInvoice : Rule :=
  { defaultRuleTemplate with activeSubject := some true, subject := some "*invoice*".toList }

/-- A rule with two set flags: sender `bob` and subject `invoice`. -/
def ruleBobInvoice : Rule :=
  { defaultRuleTemplate with
    activeFrom := some true, «from» := some "bob".toList,
    activeSubject := some true, subject := some "invoice".toList }

/-- A folder that is neither the inbox nor the trash. -/
def archiveFolder : Folder :=
  ⟨some "account1".toList, some "/Archive".toList, some "Archive".toList, none⟩

/-- The message of the spec: from `alice@x.com`, subject `Invoice #1`. -/
def messageFromAlice : Message :=
  ⟨.str "alice@x.com".toList, .list ["carol@y.org".toList], .str "Invoice #1".toList,
    archiveFolder⟩

/-- A message without recipients, as one sent to hidden recipients only. -/
def messageNoRecipients : Message :=
  ⟨.str "alice@x.com".toList, .list [], .str "Invoice #1".toList, archiveFolder⟩

/-- The rule R0 after an edit that also sets the recipient `bob`. -/
def ruleBob : Rule := { ruleAlice with activeTo := some true, «to» := some "bob".toList }

/-- The state after `updateRule(0, ruleBob)` on the store `[R0]`. -/
def stateAfterUpdate : State := ⟨[ruleBob], ruleBob, some [ruleBob]⟩

/-- A message from `dave@z.org` whose recipients value is the empty string. -/
def messageFromDave : Message :=
  ⟨.str "Dave <dave@z.org>".toList, .str [], .str "Hello".toList, archiveFolder⟩

/-- A message that was moved to the trash. -/
def messageInTrash : Message :=
  ⟨.str "alice@x.com".toList, .list ["carol@y.org".toList], .str "Invoice #1".toList,
    ⟨some "account1".toList, some "/Trash".toList, some "Trash".toList, some "trash".toList⟩⟩

/-! ## Properties of the matcher -/

theorem starLoop_suffix (body : Pos → List Pos)
    (hbody : ∀ p q, q ∈ body p → q.2 <:+ p.2) (n : Nat) (p q : Pos)
    (h : q ∈ starLoop body n p) : q.2 <:+ p.2 := by
  induction n generalizing p with
  | zero =>
    simp only [starLoop, List.mem_singleton] at h
    rw [h]
  | succ n ih =>
    simp only [starLoop, List.mem_append, List.mem_flatMap, List.mem_filter,
      List.mem_singleton] at h
    rcases h with ⟨m, ⟨hm, _⟩, hq⟩ | h
    · exact (ih m hq).trans (hbody p m hm)
    · rw [h]

theorem Re.run_suffix (r : Re) (p q : Pos) (h : q ∈ r.run p) : q.2 <:+ p.2 := by
  induction r generalizing p q with
  | empty =>
    simp only [Re.run, List.mem_singleton] at h
    rw [h]
  | assertStart =>
    simp only [Re.run] at h
    split at h
    · rw [List.mem_singleton.mp h]
    · simp at h
  | assertEnd =>
    simp only [Re.run] at h
    split at h
    · rw [List.mem_singleton.mp h]
    · simp at h
  | set accepts =>
    obtain ⟨b, s⟩ := p
    cases s with
    | nil => simp [Re.run] at h
    | cons c rest =>
      simp only [Re.run] at h
      split at h
      · rw [List.mem_singleton.mp h]
        exact List.suffix_cons c rest
      · simp at h
  | seq a b iha ihb =>
    simp only [Re.run, List.mem_flatMap] at h
    obtain ⟨m, hm, hq⟩ := h
    exact (ihb m q hq).trans (iha p m hm)
  | alt a b iha ihb =>
    simp only [Re.run, List.mem_append] at h
    rcases h with h | h
    · exact iha p q h
    · exact ihb p q h
  | star a iha =>
    simp only [Re.run] at h
    exact starLoop_suffix a.run iha _ p q h

theorem chr_run_mem (c : Char) (p q : Pos) (h : q ∈ (chr c).run p) : p.2 = c :: q.2 := by
  obtain ⟨b, s⟩ := p
  cases s with
  | nil => simp [chr, Re.run] at h
  | cons d rest =>
    simp only [chr, Re.run] at h
    split at h
    · rename_i hd
      rw [List.mem_singleton.mp h]
      simp only [beq_iff_eq] at hd
      rw [hd]
    · simp at h

theorem emailRe_run_mem (p q : Pos) (h : q ∈ emailRe.run p) :
    ∃ m, p.2 = m ++ q.2 ∧ '@' ∈ m := by
  simp only [emailRe, Re.run, List.mem_flatMap] at h
  obtain ⟨q1, h1, q2, h2, h3⟩ := h
  obtain ⟨m1, hm1⟩ := Re.run_suffix localRe p q1 h1
  have hat := chr_run_mem '@' q1 q2 h2
  obtain ⟨m3, hm3⟩ := Re.run_suffix domainRe q2 q h3
  refine ⟨m1 ++ '@' :: m3, ?_, by simp⟩
  rw [← hm1, hat, ← hm3]
  simp

theorem emailRe_matchAt_none (b : Bool) (s : JSString) (h : '@' ∉ s) :
    emailRe.matchAt (b, s) = none := by
  cases hm : emailRe.matchAt (b, s) with
  | none => rfl
  | some q =>
    exfalso
    unfold Re.matchAt at hm
    obtain ⟨m, hs, hat⟩ := emailRe_run_mem (b, s) q (List.mem_of_mem_head? hm)
    apply h
    simp only at hs
    rw [hs]
    exact List.mem_append_left _ hat

theorem emailRe_matchAll_nil (k : Nat) (b : Bool) (s : JSString) (h : '@' ∉ s) :
    emailRe.matchAll k b s = [] := by
  induction s generalizing k b with
  | nil =>
    cases k with
    | zero => simp [Re.matchAll, emailRe_matchAt_none b [] h]
    | succ k => rfl
  | cons c rest ih =>
    have hrest : '@' ∉ rest := fun hin => h (List.mem_cons_of_mem c hin)
    cases k with
    | zero =>
      unfold Re.matchAll
      rw [emailRe_matchAt_none b (c :: rest) h]
      exact ih 0 false hrest
    | succ k =>
      unfold Re.matchAll
      exact ih k false hrest

theorem OccurInOrder.later (c : Char) (ms : List JSString) (text : JSString)
    (h : OccurInOrder ms text) : OccurInOrder ms (c :: text) := by
  cases h with
  | nil => exact OccurInOrder.nil _
  | cons gap m rest ms h => exact OccurInOrder.cons (c :: gap) m rest ms h

theorem Re.matchAll_occurInOrder (r : Re) (k : Nat) (b : Bool) (s : JSString) :
    OccurInOrder (r.matchAll k b s) (s.drop k) := by
  induction s generalizing k b with
  | nil =>
    cases k with
    | zero =>
      unfold Re.matchAll
      split
      · exact OccurInOrder.cons [] [] [] [] (OccurInOrder.nil _)
      · exact OccurInOrder.nil _
    | succ k => exact OccurInOrder.nil _
  | cons c rest ih =>
    cases k with
    | succ k =>
      unfold Re.matchAll
      exact ih k false
    | zero =>
      unfold Re.matchAll
      cases hm : r.matchAt (b, c :: rest) with
      | none => exact OccurInOrder.later c _ _ (by simpa using ih 0 false)
      | some q =>
        obtain ⟨b', after⟩ := q
        simp only [List.drop_zero]
        cases hn : (c :: rest).length - after.length with
        | zero =>
          have := OccurInOrder.cons [] [] (c :: rest) _
            (OccurInOrder.later c _ _ (by simpa using ih 0 false))
          simpa using this
        | succ n =>
          have := OccurInOrder.cons [] ((c :: rest).take (n + 1)) ((c :: rest).drop (n + 1)) _
            (by simpa using ih n false)
          simpa using this

theorem parseEmail_eq_getLast (s : JSString) :
    parseEmail (some s) = .ok ((emailRe.matchAll 0 true s).getLast?.getD []) := by
  unfold parseEmail
  simp only
  cases hl : emailRe.matchAll 0 true s with
  | nil => rfl
  | cons m ms =>
    cases ms with
    | nil => rfl
    | cons m' ms' =>
      have hlen : (m :: m' :: ms').length > 1 := by simp
      simp only [List.isEmpty_cons, Bool.false_eq_true, if_false, hlen, if_true]
      congr 1
      rw [List.getLast?_eq_getElem?]
      simp [List.getD_eq_getElem?_getD]

theorem emailRe_matchAll_mem (k : Nat) (b : Bool) (s m : JSString)
    (h : m ∈ emailRe.matchAll k b s) : '@' ∈ m := by
  induction s generalizing k b with
  | nil =>
    cases k with
    | zero => simp [Re.matchAll, emailRe_matchAt_none b [] (List.not_mem_nil _)] at h
    | succ k => simp [Re.matchAll] at h
  | cons c rest ih =>
    cases k with
    | succ k =>
      unfold Re.matchAll at h
      exact ih k false h
    | zero =>
      unfold Re.matchAll at h
      cases hm : emailRe.matchAt (b, c :: rest) with
      | none =>
        rw [hm] at h
        exact ih 0 false h
      | some q =>
        obtain ⟨b', after⟩ := q
        rw [hm] at h
        simp only [List.mem_cons] at h
        rcases h with h | h
        · unfold Re.matchAt at hm
          obtain ⟨pre, hs, hat⟩ := emailRe_run_mem (b, c :: rest) (b', after)
            (List.mem_of_mem_head? hm)
          simp only at hs
          rw [h, hs]
          simpa using hat
        · exact ih _ false h

/-- C9: `parseEmail` returns the last address.  The result is the last of the
matches that the global search collects, or the empty string when there is
none, as is the case for every string without `@`; the collected matches occur
in the string one after the other without overlap, and each contains `@`. -/
theorem parseEmail_returns_last_match (s : JSString) :
    parseEmail (some s) = .ok ((emailRe.matchAll 0 true s).getLast?.getD []) ∧
    OccurInOrder (emailRe.matchAll 0 true s) s ∧
    (∀ m ∈ emailRe.matchAll 0 true s, '@' ∈ m) ∧
    (emailRe.matchAll 0 true s = [] → parseEmail (some s) = .ok []) ∧
    ('@' ∉ s → parseEmail (some s) = .ok []) := by
  refine ⟨parseEmail_eq_getLast s, ?_, fun m hm => emailRe_matchAll_mem 0 true s m hm, ?_, ?_⟩
  · simpa using Re.matchAll_occurInOrder emailRe 0 true s
  · intro h
    rw [parseEmail_eq_getLast, h]
    rfl
  · intro h
    rw [parseEmail_eq_getLast, emailRe_matchAll_nil 0 true s h]
    rfl

/-- The two addresses of the spec, and a text without `@`. -/
theorem parseEmail_returns_last_match_witness :
    emailRe.matchAll 0 true "Alice <alice@example.com>, Bob <bob@example.com>".toList =
      ["alice@example.com".toList, "bob@example.com".toList] ∧
    parseEmail (some "Alice <alice@example.com>, Bob <bob@example.com>".toList) =
      .ok "bob@example.com".toList ∧
    ('@' ∉ "no address here".toList ∧ parseEmail (some "no address here".toList) = .ok []) :=
  ⟨by decide,
   (parseEmail_returns_last_match
      "Alice <alice@example.com>, Bob <bob@example.com>".toList).1.trans (by decide),
   by decide, (parseEmail_returns_last_match "no address here".toList).2.2.2.2 (by decide)⟩

/-! ## Properties of the pattern matcher -/

theorem starLoop_fuel_enough (body : Pos → List Pos) (n : Nat) (p : Pos)
    (h : p.2.length ≤ n) : starLoop body (n + 1) p = starLoop body n p := by
  induction n generalizing p with
  | zero =>
    have h0 : p.2.length = 0 := by omega
    simp [starLoop, h0]
  | succ n ih =>
    rw [starLoop, starLoop]
    congr 1
    apply List.flatMap_congr
    intro q hq
    have hlt := (List.mem_filter.mp hq).2
    simp only [decide_eq_true_eq] at hlt
    exact ih q (by omega)

theorem splitStar_ne_nil (v : JSString) : splitStar v ≠ [] := by
  cases v with
  | nil => simp [splitStar]
  | cons c rest =>
    unfold splitStar
    split
    · simp
    · split <;> simp

theorem intercalate_cons_cons (sep x y : JSString) (ys : List JSString) :
    List.intercalate sep (x :: y :: ys) = x ++ sep ++ List.intercalate sep (y :: ys) := by
  simp [List.intercalate, List.intersperse]

theorem intercalate_append_head (sep a x : JSString) (xs : List JSString) :
    List.intercalate sep ((a ++ x) :: xs) = a ++ List.intercalate sep (x :: xs) := by
  cases xs with
  | nil => simp [List.intercalate, List.intersperse]
  | cons y ys => simp [intercalate_cons_cons]

theorem intercalate_escapeRegex_splitStar (v : JSString) :
    List.intercalate ['.', '*'] ((splitStar v).map escapeRegex) = v.flatMap charSource := by
  induction v with
  | nil => simp [splitStar, escapeRegex, List.intercalate, List.intersperse]
  | cons c rest ih =>
    unfold splitStar
    cases hs : splitStar rest with
    | nil => exact absurd hs (splitStar_ne_nil rest)
    | cons seg segs =>
      rw [hs] at ih
      simp only [List.map_cons] at ih
      simp only [List.flatMap_cons, ← ih]
      by_cases hc : c = '*'
      · simp only [hc, if_true, List.map_cons, charSource]
        rw [intercalate_cons_cons]
        simp [escapeRegex]
      · simp only [hc, if_false, List.map_cons, charSource]
        have : escapeRegex (c :: seg) =
            (if c ∈ escapeClass then ['\\', c] else [c]) ++ escapeRegex seg := by
          simp [escapeRegex]
        rw [this, intercalate_append_head]

theorem escapeClass_subset : ∀ c ∈ escapeClass, c ∈ identityEscapes := by decide

theorem syntaxChars_subset : ∀ c ∈ syntaxChars, c ∈ escapeClass := by decide

theorem lexPattern_charSource (canon : Char → Char) (c : Char) (t : JSString) :
    lexPattern canon false (charSource c ++ t) =
      (lexPattern canon false t).map fun ts => charToks canon c ++ ts := by
  by_cases hc : c = '*'
  · subst hc
    simp only [charSource, charToks, if_true, List.cons_append, List.nil_append]
    rw [lexPattern]
    simp only [show ('.' : Char) ≠ '\\' by decide, if_false, if_true]
    rw [lexPattern]
    simp only [show ('*' : Char) ≠ '\\' by decide, show ('*' : Char) ≠ '.' by decide,
      if_false, if_true, Option.map_map]
    rfl
  · by_cases he : c ∈ escapeClass
    · simp only [charSource, charToks, hc, he, if_false, if_true, List.cons_append,
        List.nil_append]
      rw [lexPattern]
      simp only [if_true]
      rw [lexPattern]
      simp only [escapeClass_subset c he, if_true]
    · simp only [charSource, charToks, hc, he, if_false, List.cons_append, List.nil_append]
      have hsyn : c ∉ syntaxChars := fun h => he (syntaxChars_subset c h)
      have h1 : c ≠ '\\' := fun h => he (by rw [h]; decide)
      have h2 : c ≠ '.' := fun h => he (by rw [h]; decide)
      have h3 : c ≠ '^' := fun h => he (by rw [h]; decide)
      have h4 : c ≠ '$' := fun h => he (by rw [h]; decide)
      rw [lexPattern]
      simp only [h1, h2, hc, h3, h4, hsyn, if_false]

theorem lexPattern_flatMap_charSource (canon : Char → Char) (v t : JSString) :
    lexPattern canon false (v.flatMap charSource ++ t) =
      (lexPattern canon false t).map fun ts => v.flatMap (charToks canon) ++ ts := by
  induction v with
  | nil => simp
  | cons c rest ih =>
    simp only [List.flatMap_cons, List.append_assoc]
    rw [lexPattern_charSource, ih, Option.map_map]
    rfl

theorem buildPattern_charToks (canon : Char → Char) (v : JSString) :
    buildPattern (v.flatMap (charToks canon) ++ [Tok.assertion Re.assertEnd]) =
      some (compilePattern canon v) := by
  induction v with
  | nil => simp [buildPattern, compilePattern]
  | cons c rest ih =>
    by_cases hc : c = '*'
    · simp only [List.flatMap_cons, charToks, hc, if_true, List.cons_append, List.nil_append,
        buildPattern, compilePattern]
      rw [ih]
      rfl
    · simp only [List.flatMap_cons, charToks, hc, if_false, List.cons_append, List.nil_append,
        compilePattern]
      cases rest with
      | nil => simp [buildPattern, compilePattern]
      | cons d rest' =>
        have ih' := ih
        by_cases hd : d = '*'
        · simp only [List.flatMap_cons, charToks, hd, if_true, List.cons_append,
            List.nil_append] at ih' ⊢
          rw [buildPattern, ih']
          · rfl
          · intro _ h
            simp at h
        · simp only [List.flatMap_cons, charToks, hd, if_false, List.cons_append,
            List.nil_append] at ih' ⊢
          rw [buildPattern, ih']
          · rfl
          · intro _ h
            simp at h

theorem newRegExp_matchSource (canon : Char → Char) (value : JSString) :
    newRegExp canon (matchSource value) =
      some (.seq .assertStart (compilePattern canon (addDefaultWildcards value))) := by
  unfold newRegExp matchSource
  rw [intercalate_escapeRegex_splitStar]
  simp only [List.cons_append, List.nil_append]
  rw [lexPattern]
  simp only [show ('^' : Char) ≠ '\\' by decide, show ('^' : Char) ≠ '.' by decide,
    show ('^' : Char) ≠ '*' by decide, if_false, if_true]
  rw [lexPattern_flatMap_charSource]
  have hend : lexPattern canon false ['$'] = some [Tok.assertion Re.assertEnd] := by
    simp [lexPattern]
  rw [hend]
  simp only [Option.map_some', Option.some_bind]
  rw [buildPattern, buildPattern_charToks]
  rfl

theorem isEmpty_append_eq (l₁ l₂ : List Pos) :
    (l₁ ++ l₂).isEmpty = (l₁.isEmpty && l₂.isEmpty) := by
  cases l₁ <;> simp

theorem starLoop_set_nil (accepts : Char → Bool) (n : Nat) (b : Bool) :
    starLoop (Re.set accepts).run n (b, []) = [(b, [])] := by
  cases n with
  | zero => rfl
  | succ n =>
    rw [starLoop]
    have : (Re.set accepts).run (b, []) = [] := rfl
    rw [this]
    rfl

theorem starLoop_set_cons (accepts : Char → Bool) (n : Nat) (b : Bool) (c : Char)
    (rest : JSString) :
    starLoop (Re.set accepts).run (n + 1) (b, c :: rest) =
      (if accepts c then starLoop (Re.set accepts).run n (false, rest) else []) ++
        [(b, c :: rest)] := by
  rw [starLoop]
  have : (Re.set accepts).run (b, c :: rest) = if accepts c then [(false, rest)] else [] := rfl
  rw [this]
  by_cases hc : accepts c = true
  · simp [hc]
  · simp [hc]

theorem starLoop_set_isEmpty (accepts : Char → Bool) (k : Pos → List Pos)
    (w : JSString → Bool) (hk : ∀ b s, (k (b, s)).isEmpty = !w s) (n : Nat) (b : Bool)
    (s : JSString) (hn : s.length ≤ n) :
    ((starLoop (Re.set accepts).run n (b, s)).flatMap k).isEmpty =
      !wildcardTail accepts w s := by
  induction s generalizing n b with
  | nil => simp [starLoop_set_nil, wildcardTail, hk]
  | cons c rest ih =>
    cases n with
    | zero => simp at hn
    | succ n =>
      have hn' : rest.length ≤ n := by simpa using hn
      rw [starLoop_set_cons, List.flatMap_append, isEmpty_append_eq]
      simp only [List.flatMap_cons, List.flatMap_nil, List.append_nil, hk, wildcardTail]
      by_cases hc : accepts c = true
      · rw [if_pos hc, ih n false hn', hc]
        cases w (c :: rest) <;> cases wildcardTail accepts w rest <;> rfl
      · rw [if_neg hc]
        simp only [Bool.not_eq_true] at hc
        simp [hc]

theorem compilePattern_run_isEmpty (canon : Char → Char) (v : JSString) (b : Bool)
    (s : JSString) :
    ((compilePattern canon v).run (b, s)).isEmpty =
      !wildcardMatch (fun c => !isLineTerminator c) canon v s := by
  induction v generalizing b s with
  | nil => cases s <;> simp [compilePattern, Re.run, wildcardMatch]
  | cons c rest ih =>
    by_cases hc : c = '*'
    · simp only [compilePattern, hc, if_true, wildcardMatch, Re.run, dotSet]
      exact starLoop_set_isEmpty _ _ _ (fun b s => ih b s) _ b s (Nat.le_refl _)
    · simp only [compilePattern, hc, if_false, wildcardMatch, Re.run, litSet]
      cases s with
      | nil => simp
      | cons ch s =>
        by_cases hm : (canon ch == canon c) = true
        · simp [hm, ih]
        · simp only [Bool.not_eq_true] at hm
          simp [hm]

theorem search_assertStart_false (r : Re) (s : JSString) :
    (Re.seq .assertStart r).search false s = false := by
  induction s with
  | nil => simp [Re.search, Re.matchAt, Re.run]
  | cons c rest ih => simp [Re.search, Re.matchAt, Re.run, ih]

theorem test_assertStart (r : Re) (s : JSString) :
    (Re.seq .assertStart r).test s = !(r.run (true, s)).isEmpty := by
  have hhead : ∀ l : List Pos, l.head?.isSome = !l.isEmpty := by
    intro l
    cases l <;> rfl
  cases s with
  | nil => simp [Re.test, Re.search, Re.matchAt, Re.run, hhead]
  | cons c rest =>
    simp [Re.test, Re.search, Re.matchAt, Re.run, hhead, search_assertStart_false]

theorem wildcardTail_idem (any : Char → Bool) (k : JSString → Bool) (s : JSString) :
    wildcardTail any (wildcardTail any k) s = wildcardTail any k s := by
  induction s with
  | nil => rfl
  | cons c rest ih =>
    simp only [wildcardTail, ih]
    cases k (c :: rest) <;> cases any c <;> cases wildcardTail any k rest <;> rfl

theorem wildcardMatch_star (any : Char → Bool) (canon : Char → Char) (v s : JSString) :
    wildcardMatch any canon ('*' :: v) s = wildcardTail any (wildcardMatch any canon v) s := by
  simp [wildcardMatch]

theorem wildcardMatch_addDefaultWildcards (any : Char → Bool) (canon : Char → Char)
    (value s : JSString) :
    wildcardMatch any canon (addDefaultWildcards value) s =
      wildcardMatch any canon ('*' :: value ++ ['*']) s := by
  have hfun : ∀ v, wildcardMatch any canon ('*' :: v) =
      wildcardTail any (wildcardMatch any canon v) := by
    intro v
    funext t
    exact wildcardMatch_star any canon v t
  have hidem : ∀ k, wildcardTail any (wildcardTail any k) = wildcardTail any k := by
    intro k
    funext t
    exact wildcardTail_idem any k t
  cases value with
  | nil =>
    simp only [addDefaultWildcards, List.take_nil, ne_eq, List.nil_eq, reduceCtorEq,
      not_false_eq_true, if_true, not_true_eq_false, if_false, List.cons_append,
      List.nil_append]
    simp only [hfun, hidem]
  | cons c rest =>
    by_cases hc : c = '*'
    · subst hc
      cases rest with
      | nil =>
        simp only [addDefaultWildcards, List.take_succ_cons, List.take_zero, ne_eq,
          not_true_eq_false, if_false, List.cons_append, List.nil_append]
        simp only [hfun, hidem]
      | cons d rest' =>
        simp only [addDefaultWildcards, List.take_succ_cons, List.take_zero, ne_eq,
          not_true_eq_false, if_false, List.cons.injEq, true_and, reduceCtorEq,
          not_false_eq_true, if_true, List.cons_append]
        simp only [hfun, hidem]
    · simp only [addDefaultWildcards, List.take_succ_cons, List.take_zero, ne_eq,
        List.cons.injEq, and_true, hc, not_false_eq_true, if_true, reduceCtorEq, and_false,
        List.cons_append]

/-- What `findMatch` computes: the wildcard matching of `string` against
`value` between a leading and a trailing `*`, where `*` stands for a sequence
of characters other than line terminators. -/
theorem findMatch_eq_wildcardMatch (canon : Char → Char) (string value : JSString) :
    findMatch canon (some string) (some value) =
      .ok (wildcardMatch (fun c => !isLineTerminator c) canon ('*' :: value ++ ['*']) string) := by
  simp only [findMatch, newRegExp_matchSource, test_assertStart, compilePattern_run_isEmpty,
    Bool.not_not, wildcardMatch_addDefaultWildcards]

theorem wildcardTail_congr (any any' : Char → Bool) (k k' : JSString → Bool) (s : JSString)
    (hany : ∀ c ∈ s, any c = any' c) (hk : ∀ t, t <:+ s → k t = k' t) :
    wildcardTail any k s = wildcardTail any' k' s := by
  induction s with
  | nil => exact hk [] (List.suffix_refl _)
  | cons c rest ih =>
    simp only [wildcardTail]
    rw [hk (c :: rest) (List.suffix_refl _), hany c (List.mem_cons_self c rest),
      ih (fun d hd => hany d (List.mem_cons_of_mem c hd))
        (fun t ht => hk t (ht.trans (List.suffix_cons c rest)))]

theorem wildcardMatch_congr (any any' : Char → Bool) (canon : Char → Char) (v s : JSString)
    (hany : ∀ c ∈ s, any c = any' c) :
    wildcardMatch any canon v s = wildcardMatch any' canon v s := by
  induction v generalizing s with
  | nil => rfl
  | cons c rest ih =>
    by_cases hc : c = '*'
    · simp only [wildcardMatch, hc, if_true]
      apply wildcardTail_congr any any' _ _ s hany
      intro t ht
      exact ih t (fun d hd => hany d (ht.subset hd))
    · simp only [wildcardMatch, hc, if_false]
      cases s with
      | nil => rfl
      | cons ch s =>
        simp only
        rw [ih s (fun d hd => hany d (List.mem_cons_of_mem ch hd))]

/-- On a string without line terminators `findMatch` is the matcher of the
spec. -/
theorem findMatch_eq_specMatch (canon : Char → Char) (string value : JSString)
    (h : ∀ c ∈ string, isLineTerminator c = false) :
    findMatch canon (some string) (some value) = .ok (specMatch canon string value) := by
  rw [findMatch_eq_wildcardMatch, specMatch]
  congr 1
  apply wildcardMatch_congr
  intro c hc
  simp [h c hc]

theorem wildcardTail_true_iff (k : JSString → Bool) (s : JSString) :
    wildcardTail (fun _ => true) k s = true ↔ ∃ a t, s = a ++ t ∧ k t = true := by
  induction s with
  | nil =>
    simp only [wildcardTail]
    constructor
    · intro h
      exact ⟨[], [], rfl, h⟩
    · rintro ⟨a, t, hs, hk⟩
      have ht : t = [] := (List.append_eq_nil.mp hs.symm).2
      rw [ht] at hk
      exact hk
  | cons c rest ih =>
    simp only [wildcardTail, Bool.true_and, Bool.or_eq_true, ih]
    constructor
    · rintro (h | ⟨a, t, hs, hk⟩)
      · exact ⟨[], c :: rest, rfl, h⟩
      · exact ⟨c :: a, t, by rw [hs]; rfl, hk⟩
    · rintro ⟨a, t, hs, hk⟩
      cases a with
      | nil =>
        left
        rw [hs]
        exact hk
      | cons d a =>
        right
        simp only [List.cons_append, List.cons.injEq] at hs
        exact ⟨a, t, hs.2, hk⟩

theorem wildcardMatch_literal_star (canon : Char → Char) (p t : JSString) (hp : '*' ∉ p) :
    wildcardMatch (fun _ => true) canon (p ++ ['*']) t = true ↔
      ∃ m b, t = m ++ b ∧ m.map canon = p.map canon := by
  induction p generalizing t with
  | nil =>
    simp only [List.nil_append, wildcardMatch_star, wildcardTail_true_iff, List.map_nil,
      List.map_eq_nil_iff]
    constructor
    · intro _
      exact ⟨[], t, rfl, rfl⟩
    · intro _
      exact ⟨t, [], by simp, rfl⟩
  | cons c p ih =>
    have hc : c ≠ '*' := fun h => hp (by simp [h])
    have hp' : '*' ∉ p := fun h => hp (List.mem_cons_of_mem c h)
    simp only [List.cons_append, wildcardMatch, hc, if_false]
    cases t with
    | nil =>
      simp only [Bool.false_eq_true, false_iff, not_exists, not_and]
      intro m b hmb hmap
      have hm : m = [] := (List.append_eq_nil.mp hmb.symm).1
      rw [hm] at hmap
      simp at hmap
    | cons ch t =>
      have ih' := ih t hp'
      constructor
      · intro h
        simp only [Bool.and_eq_true, beq_iff_eq] at h
        obtain ⟨m, b, ht, hmap⟩ := ih'.mp h.2
        exact ⟨ch :: m, b, by rw [ht]; rfl, by simp [h.1, hmap]⟩
      · rintro ⟨m, b, ht, hmap⟩
        cases m with
        | nil => simp at hmap
        | cons d m =>
          simp only [List.cons_append, List.cons.injEq] at ht
          simp only [List.map_cons, List.cons.injEq] at hmap
          simp only [Bool.and_eq_true, beq_iff_eq]
          exact ⟨by rw [ht.1]; exact hmap.1, ih'.mpr ⟨m, b, ht.2, hmap.2⟩⟩

/-- For a pattern without `*` the matcher of the spec is the search for the
pattern as a contiguous part of the string, up to `canon`. -/
theorem specMatch_iff_infix (canon : Char → Char) (string pattern : JSString)
    (hp : '*' ∉ pattern) :
    specMatch canon string pattern = true ↔
      ∃ a m b, string = a ++ m ++ b ∧ m.map canon = pattern.map canon := by
  rw [specMatch, List.cons_append, wildcardMatch_star, wildcardTail_true_iff]
  constructor
  · rintro ⟨a, t, hs, hk⟩
    obtain ⟨m, b, ht, hmap⟩ := (wildcardMatch_literal_star canon pattern t hp).mp hk
    exact ⟨a, m, b, by rw [hs, ht, List.append_assoc], hmap⟩
  · rintro ⟨a, m, b, hs, hmap⟩
    exact ⟨a, m ++ b, by rw [hs, List.append_assoc],
      (wildcardMatch_literal_star canon pattern (m ++ b) hp).mpr ⟨m, b, rfl, hmap⟩⟩

/-- C1: `findMatch` is not the matcher of the spec on strings with a line
terminator.  The `.` that stands for `*` does not match a line terminator:
for the string `"a\nb"` and the pattern `"*"` the spec gives `true` and
`findMatch` gives `false`, and likewise for a subject that holds U+2028, and
for the pattern `"invoice"` that is a part of the string `"Re: invoice\nx"`. -/
theorem findMatch_rejects_line_terminator (canon : Char → Char) :
    findMatch canon (some "a\nb".toList) (some "*".toList) = .ok false ∧
    specMatch canon "a\nb".toList "*".toList = true ∧
    findMatch canon (some ['I', 'n', 'v', Char.ofNat 0x2028, '1']) (some "*".toList) =
      .ok false ∧
    specMatch canon ['I', 'n', 'v', Char.ofNat 0x2028, '1'] "*".toList = true ∧
    findMatch asciiCanon (some "Re: invoice\nx".toList) (some "invoice".toList) = .ok false ∧
    specMatch asciiCanon "Re: invoice\nx".toList "invoice".toList = true :=
  ⟨rfl, rfl, rfl, rfl, by decide, by decide⟩

/-! ## Properties of the rule store -/

theorem loadRules_storage (st : State) : (loadRules st).storage = st.storage := by
  unfold loadRules
  cases st.storage <;> rfl

theorem loadRules_defaultRule (st : State) : (loadRules st).defaultRule = st.defaultRule := by
  unfold loadRules
  cases st.storage <;> rfl

theorem saveRules_eq (st : State) : saveRules st = ⟨st.rules, st.defaultRule, some st.rules⟩ := rfl

theorem initRules_eq (st : State) : initRules st = loadRules st := rfl

theorem filterNotNull_deleteSlot (l : List Rule) (i : Nat) :
    filterNotNull (deleteSlot (l.map some) i) = l.eraseIdx i := by
  induction l generalizing i with
  | nil => rfl
  | cons r l ih =>
    cases i with
    | zero =>
      have h : ∀ l : List Rule, filterNotNull (l.map some) = l := by
        intro l
        induction l with
        | nil => rfl
        | cons a l ih => simp [filterNotNull, ih]
      simp [deleteSlot, filterNotNull, h]
    | succ i => simp [deleteSlot, filterNotNull, ih]

theorem importCheck_eq_true_iff (d : List Rule) :
    importCheck d = true ↔
      ∀ rule ∈ d, rule.«from».isSome ∧ rule.«to».isSome ∧ rule.subject.isSome ∧
        rule.folder.isSome := by
  induction d with
  | nil => simp [importCheck]
  | cons r d ih =>
    unfold importCheck
    by_cases h : (r.«from».isNone || r.«to».isNone || r.subject.isNone || r.folder.isNone) = true
    · rw [if_pos h]
      simp only [Bool.or_eq_true, Option.isNone_iff_eq_none] at h
      simp only [List.mem_cons, forall_eq_or_imp, Bool.false_eq_true, false_iff, not_and]
      intro hr
      rcases h with ((h | h) | h) | h <;> simp [h] at hr
    · rw [if_neg h, ih]
      simp only [Bool.or_eq_true, Option.isNone_iff_eq_none, not_or] at h
      obtain ⟨⟨⟨h1, h2⟩, h3⟩, h4⟩ := h
      simp only [List.mem_cons, forall_eq_or_imp]
      constructor
      · intro hd
        refine ⟨⟨?_, ?_, ?_, ?_⟩, hd⟩ <;> simp [Option.isSome_iff_ne_none, *]
      · exact fun hd => hd.2

theorem createRule_stored (st : State) (rule : Rule) :
    (createRule st rule).1.rules =
      (initRules st).rules ++ [assignDefined st.defaultRule rule] ∧
    (createRule st rule).1.storage =
      some ((initRules st).rules ++ [assignDefined st.defaultRule rule]) ∧
    (createRule st rule).1.defaultRule = assignDefined st.defaultRule rule ∧
    (createRule st rule).2 = (initRules st).rules.length := by
  simp [createRule, saveRules_eq, initRules_eq, loadRules_defaultRule]

/-- From the initial value of `defaultRule`, `createRule` stores the template
with the defined properties of its argument. -/
theorem createRule_from_template (st : State) (rule : Rule)
    (h : st.defaultRule = defaultRuleTemplate) :
    (createRule st rule).1.rules =
      (initRules st).rules ++ [assignDefined defaultRuleTemplate rule] := by
  rw [(createRule_stored st rule).1, h]

/-- C6: `deleteRule` compacts the list.  When the store holds the list `l` and
`i` is below its length, `deleteRule(i)` returns `i` and leaves, in memory and
in the storage area, `l` without its `i`-th element: the length is one less,
the rules below `i` stay where they are, and the rule that was at `j > i` is
now at `j - 1`. -/
theorem deleteRule_compacts (st : State) (l : List Rule) (i : Nat)
    (hl : (initRules st).rules = l) (hi : i < l.length) :
    (deleteRule st i).2 = i ∧
    (deleteRule st i).1.rules = l.eraseIdx i ∧
    (deleteRule st i).1.storage = some (l.eraseIdx i) ∧
    (deleteRule st i).1.rules.length = l.length - 1 ∧
    (∀ j, j < i → (deleteRule st i).1.rules.get? j = l.get? j) ∧
    (∀ j, i < j → j < l.length → (deleteRule st i).1.rules.get? (j - 1) = l.get? j) := by
  have hrules : (deleteRule st i).1.rules = l.eraseIdx i := by
    simp only [deleteRule, saveRules_eq, hl, filterNotNull_deleteSlot]
  have hstore : (deleteRule st i).1.storage = some (l.eraseIdx i) := by
    simp only [deleteRule, saveRules_eq, hl, filterNotNull_deleteSlot]
  refine ⟨rfl, hrules, hstore, ?_, ?_, ?_⟩
  · rw [hrules, List.length_eraseIdx, if_pos hi]
  · intro j hj
    rw [hrules]
    simp only [List.get?_eq_getElem?]
    rw [List.getElem?_eraseIdx, if_pos hj]
  · intro j hij _
    rw [hrules]
    simp only [List.get?_eq_getElem?]
    rw [List.getElem?_eraseIdx, if_neg (by omega)]
    congr 1
    omega

/-- A store of three rules for the examples. -/
theorem deleteRule_compacts_witness :
    ((initRules (State.initial (some
        [{ defaultRuleTemplate with subject := some ['a'] },
         { defaultRuleTemplate with subject := some ['b'] },
         { defaultRuleTemplate with subject := some ['c'] }]))).rules =
      [{ defaultRuleTemplate with subject := some ['a'] },
       { defaultRuleTemplate with subject := some ['b'] },
       { defaultRuleTemplate with subject := some ['c'] }] ∧ 1 < 3) ∧
    (getRule (deleteRule (State.initial (some
        [{ defaultRuleTemplate with subject := some ['a'] },
         { defaultRuleTemplate with subject := some ['b'] },
         { defaultRuleTemplate with subject := some ['c'] }])) 1).1 1).map (fun r => r.2) =
      .ok ({ defaultRuleTemplate with subject := some ['c'] }, 1) ∧
    (deleteRule (State.initial (some
        [{ defaultRuleTemplate with subject := some ['a'] },
         { defaultRuleTemplate with subject := some ['b'] },
         { defaultRuleTemplate with subject := some ['c'] }])) 1).1.rules.length = 2 := by
  have h := deleteRule_compacts (State.initial (some
        [{ defaultRuleTemplate with subject := some ['a'] },
         { defaultRuleTemplate with subject := some ['b'] },
         { defaultRuleTemplate with subject := some ['c'] }]))
      [{ defaultRuleTemplate with subject := some ['a'] },
       { defaultRuleTemplate with subject := some ['b'] },
       { defaultRuleTemplate with subject := some ['c'] }] 1 rfl (by decide)
  exact ⟨⟨rfl, by decide⟩, by decide, h.2.2.2.1⟩

/-- C7: `importRules` is all or nothing.  When some element lacks one of the
keys `from`, `to`, `subject`, `folder`, the result is `false` and the state is
the one before the call; when every element has the four keys, the result is
`true` and the list in memory and the stored record are the imported list. -/
theorem importRules_all_or_nothing (st : State) (importData : List Rule) :
    ((∃ rule ∈ importData, rule.«from» = none ∨ rule.«to» = none ∨ rule.subject = none ∨
        rule.folder = none) →
      importRules st importData = (st, false)) ∧
    ((∀ rule ∈ importData, rule.«from» ≠ none ∧ rule.«to» ≠ none ∧ rule.subject ≠ none ∧
        rule.folder ≠ none) →
      (importRules st importData).2 = true ∧
      (importRules st importData).1.rules = importData ∧
      (importRules st importData).1.storage = some importData) := by
  constructor
  · rintro ⟨rule, hmem, hlack⟩
    have hc : importCheck importData = false := by
      rw [Bool.eq_false_iff, Ne, importCheck_eq_true_iff]
      intro hall
      have := hall rule hmem
      simp only [Option.isSome_iff_ne_none] at this
      rcases hlack with h | h | h | h <;> simp [h] at this
    simp [importRules, hc]
  · intro hall
    have hc : importCheck importData = true := by
      rw [importCheck_eq_true_iff]
      intro rule hmem
      simpa only [Option.isSome_iff_ne_none] using hall rule hmem
    simp [importRules, hc, saveRules_eq]

/-- The list of the spec, without `folder`, is refused by a store of one rule;
a list of one complete rule replaces it. -/
theorem importRules_all_or_nothing_witness :
    importRules (saveRules ⟨[defaultRuleTemplate], defaultRuleTemplate, none⟩)
        [⟨some ['a'], some ['b'], some ['c'], none, none, none, none⟩] =
      (saveRules ⟨[defaultRuleTemplate], defaultRuleTemplate, none⟩, false) ∧
    (importRules (saveRules ⟨[defaultRuleTemplate], defaultRuleTemplate, none⟩)
        [⟨some ['a'], some ['b'], some ['c'], none, none, none,
          some Folder.emptyObject⟩]).1.storage =
      some [⟨some ['a'], some ['b'], some ['c'], none, none, none, some Folder.emptyObject⟩] :=
  ⟨(importRules_all_or_nothing _ _).1 ⟨_, List.mem_singleton.mpr rfl, by decide⟩,
   ((importRules_all_or_nothing _ _).2 (by decide)).2.2⟩

/-- C8: protected destinations are never learned.  For a message whose folder
type is `"inbox"` or `"trash"`, `createDefaultRule` returns `false` and the
state (list in memory, default rule, stored record) is the one before. -/
theorem createDefaultRule_protected (st : State) (message : Message)
    (h : message.folder.type = some "inbox".toList ∨ message.folder.type = some "trash".toList) :
    createDefaultRule st message = .ok (st, none) := by
  unfold createDefaultRule
  rcases h with h | h
  · rw [if_pos h]
  · by_cases h' : message.folder.type = some "inbox".toList
    · rw [if_pos h']
    · rw [if_neg h', if_pos h]

/-- A message that was moved to the trash leaves a store of one rule as it
is. -/
theorem createDefaultRule_protected_witness :
    (messageInTrash.folder.type = some "inbox".toList ∨
      messageInTrash.folder.type = some "trash".toList) ∧
    createDefaultRule (State.initial (some [ruleAlice])) messageInTrash =
      .ok (State.initial (some [ruleAlice]), none) :=
  ⟨Or.inr rfl,
   createDefaultRule_protected (State.initial (some [ruleAlice])) messageInTrash (Or.inr rfl)⟩

/-! ## Properties of the rule evaluator -/

theorem findRuleLoop_ok_some (canon : Char → Char) (message : Message) (rules : List Rule)
    (i : Nat) (rule : Rule) (j : Nat)
    (h : findRuleLoop canon message rules i false = .ok (some (rule, j))) :
    rule.qualifies canon message ∧ ∃ k, j = i + k ∧ rules.get? k = some rule ∧
      ∀ k', k' < k → ∀ r, rules.get? k' = some r → ruleVote canon message r false = .ok false := by
  induction rules generalizing i with
  | nil => simp [findRuleLoop] at h
  | cons r rest ih =>
    unfold findRuleLoop at h
    cases hv : ruleVote canon message r false with
    | error e => simp [hv] at h
    | ok m =>
      cases m with
      | true =>
        simp only [hv, if_true, Except.ok.injEq, Option.some.injEq, Prod.mk.injEq] at h
        obtain ⟨hr, hj⟩ := h
        subst hr
        exact ⟨hv, 0, by omega, rfl, fun k' hk' => absurd hk' (Nat.not_lt_zero _)⟩
      | false =>
        simp only [hv, Bool.false_eq_true, if_false] at h
        obtain ⟨hq, k, hk, hget, hbefore⟩ := ih (i + 1) h
        refine ⟨hq, k + 1, by omega, hget, ?_⟩
        intro k' hk' r' hr'
        cases k' with
        | zero =>
          simp only [List.get?_cons_zero, Option.some.injEq] at hr'
          rw [← hr']
          exact hv
        | succ k' => exact hbefore k' (by omega) r' hr'

theorem findRuleLoop_ok_none (canon : Char → Char) (message : Message) (rules : List Rule)
    (i : Nat) (h : findRuleLoop canon message rules i false = .ok none) :
    ∀ r ∈ rules, ruleVote canon message r false = .ok false := by
  induction rules generalizing i with
  | nil => simp
  | cons r rest ih =>
    unfold findRuleLoop at h
    cases hv : ruleVote canon message r false with
    | error e => simp [hv] at h
    | ok m =>
      cases m with
      | true => simp [hv] at h
      | false =>
        simp only [hv, Bool.false_eq_true, if_false] at h
        intro r' hr'
        rcases List.mem_cons.mp hr' with h' | h'
        · rw [h']
          exact hv
        · exact ih (i + 1) h r' h'

theorem findRule_snd_of_ok (canon : Char → Char) (st : State) (message : Message)
    (result : Option (Rule × Nat))
    (h : findRuleLoop canon message (initRules st).rules 0 false = .ok result) :
    (findRule canon st message).2 = result := by
  simp only [findRule, h]

theorem findRule_snd_some (canon : Char → Char) (st : State) (message : Message)
    (rule : Rule) (i : Nat) (h : (findRule canon st message).2 = some (rule, i)) :
    findRuleLoop canon message (initRules st).rules 0 false = .ok (some (rule, i)) := by
  unfold findRule at h
  cases hl : findRuleLoop canon message (initRules st).rules 0 false with
  | error e => simp [hl] at h
  | ok result =>
    simp only [hl] at h
    rw [h]

theorem ruleVote_no_flag (canon : Char → Char) (message : Message) (rule : Rule)
    (h1 : truthy rule.activeFrom = false) (h2 : truthy rule.activeTo = false)
    (h3 : truthy rule.activeSubject = false) (matchFlag : Bool) :
    ruleVote canon message rule matchFlag = .ok matchFlag := by
  simp [ruleVote, voteStep, h1, h2, h3, bind, Except.bind]

/-- C3: `findRule` is first match wins.  When the loop over the store raises no
exception, `findRule` returns its result; a returned rule is the rule of the
store at the attached index, it qualifies on its own, and no rule at a lower
index qualifies; and the result is `false` exactly when no rule of the store
qualifies. -/
theorem findRule_first_match_wins (canon : Char → Char) (st : State) (message : Message)
    (result : Option (Rule × Nat))
    (hok : findRuleLoop canon message (initRules st).rules 0 false = .ok result) :
    (findRule canon st message).2 = result ∧
    (∀ rule i, result = some (rule, i) →
      (initRules st).rules.get? i = some rule ∧ rule.qualifies canon message ∧
      ∀ j, j < i → ∀ r, (initRules st).rules.get? j = some r → ¬ r.qualifies canon message) ∧
    (result = none ↔ ∀ r ∈ (initRules st).rules, ¬ r.qualifies canon message) := by
  refine ⟨findRule_snd_of_ok canon st message result hok, ?_, ?_⟩
  · intro rule i hres
    rw [hres] at hok
    obtain ⟨hq, k, hk, hget, hbefore⟩ := findRuleLoop_ok_some canon message _ 0 rule i hok
    have hik : i = k := by omega
    subst hik
    refine ⟨hget, hq, ?_⟩
    intro j hj r hr hqr
    have := hbefore j hj r hr
    unfold Rule.qualifies at hqr
    rw [this] at hqr
    simp at hqr
  · constructor
    · intro hres r hr hqr
      rw [hres] at hok
      have := findRuleLoop_ok_none canon message _ 0 hok r hr
      unfold Rule.qualifies at hqr
      rw [this] at hqr
      simp at hqr
    · intro hnone
      cases result with
      | none => rfl
      | some found =>
        obtain ⟨rule, i⟩ := found
        obtain ⟨hq, k, _, hget, _⟩ := findRuleLoop_ok_some canon message _ 0 rule i hok
        exact absurd hq (hnone rule (List.get?_mem hget))

/-- C4: a rule without a set flag is never the result of `findRule`: a returned
rule has `activeFrom`, `activeTo` or `activeSubject` set, whatever the rules
before it. -/
theorem findRule_never_vacuous (canon : Char → Char) (st : State) (message : Message)
    (rule : Rule) (i : Nat) (h : (findRule canon st message).2 = some (rule, i)) :
    rule.activeFrom = some true ∨ rule.activeTo = some true ∨ rule.activeSubject = some true := by
  have hq := (findRuleLoop_ok_some canon message _ 0 rule i
    (findRule_snd_some canon st message rule i h)).1
  by_contra hno
  simp only [not_or] at hno
  have hv := ruleVote_no_flag canon message rule (by simp [truthy, hno.1])
    (by simp [truthy, hno.2.1]) (by simp [truthy, hno.2.2]) false
  unfold Rule.qualifies at hq
  rw [hv] at hq
  simp at hq

/-- The store `[R0, R1]` of the spec and its message: both rules qualify, the
result is R0 with index 0. -/
theorem findRule_first_match_wins_witness :
    findRuleLoop asciiCanon messageFromAlice
        (initRules (State.initial (some [ruleAlice, ruleInvoice]))).rules 0 false =
      .ok (some (ruleAlice, 0)) ∧
    ruleInvoice.qualifies asciiCanon messageFromAlice ∧
    (findRule asciiCanon (State.initial (some [ruleAlice, ruleInvoice])) messageFromAlice).2 =
      some (ruleAlice, 0) :=
  ⟨by decide, by decide,
   (findRule_first_match_wins asciiCanon (State.initial (some [ruleAlice, ruleInvoice]))
      messageFromAlice (some (ruleAlice, 0)) (by decide)).1⟩

/-- A rule without a set flag before R1: the result is R1 with index 1. -/
theorem findRule_never_vacuous_witness :
    (findRule asciiCanon (State.initial (some [defaultRuleTemplate, ruleInvoice]))
        messageFromAlice).2 = some (ruleInvoice, 1) ∧
    (ruleInvoice.activeFrom = some true ∨ ruleInvoice.activeTo = some true ∨
      ruleInvoice.activeSubject = some true) :=
  ⟨by decide,
   findRule_never_vacuous asciiCanon (State.initial (some [defaultRuleTemplate, ruleInvoice]))
     messageFromAlice ruleInvoice 1 (by decide)⟩

/-- C2: the set fields of a rule are not combined by AND.  The rule with sender
`bob` and subject `invoice`, both set, is the result for the message from
`alice@x.com` with subject `Invoice #1`, though `findMatch` rejects the sender:
the step for the subject sets `match` again after the step for the sender has
cleared it. -/
theorem findRule_last_set_field_decides :
    (findRule asciiCanon (State.initial (some [ruleBobInvoice])) messageFromAlice).2 =
      some (ruleBobInvoice, 0) ∧
    ruleBobInvoice.activeFrom = some true ∧
    messageFromAlice.author.isString = true ∧
    (getMessageHeaderValue messageFromAlice .author >>= fun string =>
      findMatch asciiCanon string ruleBobInvoice.«from») = .ok false := by
  decide

/-- C5: `createRule` and `updateRule` merge into `this.defaultRule` itself, so
a later call starts from the values of the earlier ones.  After
`createRule({from: "x", activeFrom: true})`, `createRule({to: "y"})` stores a
rule with `from` `"x"` and `activeFrom` `true`; after an `updateRule` that sets
`activeSubject`, the rule that `createDefaultRule` stores has `activeSubject`
set, though `createDefaultRule` passes no such key. -/
theorem createRule_starts_from_earlier_values :
    (getRule
        (createRule
          (createRule (State.initial none)
            { Rule.emptyObject with «from» := some ['x'], activeFrom := some true }).1
          { Rule.emptyObject with «to» := some ['y'] }).1 1).map (fun r => r.2) =
      .ok ({ defaultRuleTemplate with
              «from» := some ['x'], activeFrom := some true, «to» := some ['y'] }, 1) ∧
    assignDefined defaultRuleTemplate { Rule.emptyObject with «to» := some ['y'] } =
      { defaultRuleTemplate with «to» := some ['y'] } ∧
    ((updateRule (State.initial (some [ruleAlice])) 0
        { ruleAlice with activeSubject := some true }).map fun updated =>
      (createDefaultRule updated.1 messageFromAlice).map fun created =>
        (created.1.rules.get? 1).map fun rule => rule.activeSubject) =
      some (.ok (some (some true))) := by
  decide

/-- C10: `getMessageHeaderValue` is not total.  A missing header makes it throw
for each of the three fields; an empty array makes it throw for `author` and
`recipients` and gives `undefined` for `subject`. -/
theorem getMessageHeaderValue_not_total (folder : Folder) :
    getMessageHeaderValue ⟨.absent, .absent, .absent, folder⟩ .author = .error .typeError ∧
    getMessageHeaderValue ⟨.absent, .absent, .absent, folder⟩ .recipients = .error .typeError ∧
    getMessageHeaderValue ⟨.absent, .absent, .absent, folder⟩ .subject = .error .typeError ∧
    getMessageHeaderValue ⟨.list [], .list [], .list [], folder⟩ .author = .error .typeError ∧
    getMessageHeaderValue ⟨.list [], .list [], .list [], folder⟩ .recipients =
      .error .typeError ∧
    getMessageHeaderValue ⟨.list [], .list [], .list [], folder⟩ .subject = .ok none ∧
    createDefaultRule (State.initial none) messageNoRecipients = .error .typeError :=
  ⟨rfl, rfl, rfl, rfl, rfl, rfl, by decide⟩

/-! ## Properties of the learning step -/

theorem wildcardTail_of_rest (any : Char → Bool) (k : JSString → Bool) (s : JSString)
    (h : k s = true) : wildcardTail any k s = true := by
  cases s with
  | nil => exact h
  | cons c rest => simp [wildcardTail, h]

theorem wildcardMatch_self_star (any : Char → Bool) (canon : Char → Char) (s : JSString)
    (hany : any '*' = true) : wildcardMatch any canon (s ++ ['*']) s = true := by
  induction s with
  | nil => simp [wildcardMatch, wildcardTail]
  | cons c rest ih =>
    by_cases hc : c = '*'
    · subst hc
      rw [List.cons_append, wildcardMatch_star]
      simp only [wildcardTail, hany, Bool.true_and, Bool.or_eq_true]
      right
      exact wildcardTail_of_rest any _ rest ih
    · simp [wildcardMatch, hc, ih]

/-- A string matches itself as a pattern, whatever characters it holds. -/
theorem findMatch_self (canon : Char → Char) (s : JSString) :
    findMatch canon (some s) (some s) = .ok true := by
  rw [findMatch_eq_wildcardMatch, List.cons_append, wildcardMatch_star]
  congr 1
  exact wildcardTail_of_rest _ _ s (wildcardMatch_self_star _ canon s (by decide))

theorem findMatch_ok (canon : Char → Char) (string : Option JSString) (value : JSString) :
    ∃ b, findMatch canon string (some value) = .ok b := by
  cases string with
  | none => exact ⟨false, rfl⟩
  | some s => exact ⟨_, findMatch_eq_wildcardMatch canon s value⟩

theorem parseEmail_some (s : JSString) : parseEmail (some s) = .ok (lastAddress s) :=
  parseEmail_eq_getLast s

theorem getMessageHeaderValue_author (message : Message)
    (h : message.author.isString = true) :
    getMessageHeaderValue message .author = .ok (some (lastAddress message.author.text)) := by
  cases ha : message.author with
  | str a =>
    simp [getMessageHeaderValue, Message.header, ha, parseEmail_some, Header.text, bind,
      Except.bind, Except.map]
  | absent => simp [ha, Header.isString] at h
  | list xs => simp [ha, Header.isString] at h

theorem getMessageHeaderValue_subject (message : Message)
    (h : message.subject.isString = true) :
    getMessageHeaderValue message .subject = .ok (some message.subject.text) := by
  cases ha : message.subject with
  | str a => simp [getMessageHeaderValue, Message.header, ha, Header.text, bind, Except.bind]
  | absent => simp [ha, Header.isString] at h
  | list xs => simp [ha, Header.isString] at h

theorem getMessageHeaderValue_recipients (message : Message)
    (h : (message.recipients.isString || message.recipients.hasFirstElement) = true) :
    getMessageHeaderValue message .recipients =
      .ok (some (lastAddress message.recipients.text)) := by
  cases ha : message.recipients with
  | str a =>
    simp [getMessageHeaderValue, Message.header, ha, parseEmail_some, Header.text, bind,
      Except.bind, Except.map]
  | absent => simp [ha, Header.isString, Header.hasFirstElement] at h
  | list xs =>
    cases xs with
    | nil => simp [ha, Header.isString, Header.hasFirstElement] at h
    | cons x xs =>
      simp [getMessageHeaderValue, Message.header, ha, parseEmail_some, Header.text,
        Header.first, bind, Except.bind, Except.map]

theorem recipients_first_ok (message : Message)
    (h : (message.recipients.isString || message.recipients.hasFirstElement) = true) :
    ∃ b, message.recipients.first.map Option.isSome = .ok b := by
  cases ha : message.recipients with
  | str a => exact ⟨_, rfl⟩
  | absent => simp [ha, Header.isString, Header.hasFirstElement] at h
  | list xs => exact ⟨_, rfl⟩

theorem voteStep_ok (canon : Char → Char) (active : Option Bool)
    (headerIsString : Except JSError Bool) (headerValue : Except JSError (Option JSString))
    (pattern : Option JSString) (matchFlag : Bool) (b : Bool) (v p : JSString)
    (his : headerIsString = .ok b) (hv : headerValue = .ok (some v)) (hp : pattern = some p) :
    ∃ b', voteStep canon active headerIsString headerValue pattern matchFlag = .ok b' := by
  subst his hv hp
  unfold voteStep
  by_cases ha : truthy active = true
  · cases b with
    | true =>
      obtain ⟨b', hb'⟩ := findMatch_ok canon (some v) p
      exact ⟨b', by simp [ha, bind, Except.bind, hb']⟩
    | false => exact ⟨false, by simp [ha, bind, Except.bind]⟩
  · exact ⟨matchFlag, by simp [ha]⟩

theorem voteStep_self (canon : Char → Char) (active : Option Bool)
    (headerIsString : Except JSError Bool) (headerValue : Except JSError (Option JSString))
    (matchFlag : Bool) (b : Bool) (v : JSString)
    (his : headerIsString = .ok b) (hv : headerValue = .ok (some v)) :
    voteStep canon active headerIsString headerValue (some v) matchFlag =
      .ok (if truthy active then b else matchFlag) := by
  subst his hv
  unfold voteStep
  by_cases ha : truthy active = true
  · cases b with
    | true => simp [ha, bind, Except.bind, findMatch_self]
    | false => simp [ha, bind, Except.bind]
  · simp [ha]

theorem ruleVote_ok (canon : Char → Char) (message : Message) (rule : Rule) (matchFlag : Bool)
    (hm : message.hasStringHeaders = true) (hr : rule.hasStringPatterns = true) :
    ∃ b, ruleVote canon message rule matchFlag = .ok b := by
  simp only [Message.hasStringHeaders, Bool.and_eq_true] at hm
  obtain ⟨⟨hauthor, hsubject⟩, hrecipients⟩ := hm
  simp only [Rule.hasStringPatterns, Bool.and_eq_true, Option.isSome_iff_exists] at hr
  obtain ⟨⟨⟨pf, hpf⟩, ⟨pt, hpt⟩⟩, ⟨ps, hps⟩⟩ := hr
  obtain ⟨b2, hb2⟩ := recipients_first_ok message hrecipients
  unfold ruleVote
  obtain ⟨f1, h1⟩ := voteStep_ok canon rule.activeFrom (.ok message.author.isString)
    (getMessageHeaderValue message .author) rule.«from» matchFlag _ _ pf rfl
    (getMessageHeaderValue_author message hauthor) hpf
  obtain ⟨f2, h2⟩ := voteStep_ok canon rule.activeTo
    (message.recipients.first.map Option.isSome)
    (getMessageHeaderValue message .recipients) rule.«to» f1 b2 _ pt hb2
    (getMessageHeaderValue_recipients message hrecipients) hpt
  obtain ⟨f3, h3⟩ := voteStep_ok canon rule.activeSubject (.ok message.subject.isString)
    (getMessageHeaderValue message .subject) rule.subject f2 _ _ ps rfl
    (getMessageHeaderValue_subject message hsubject) hps
  exact ⟨f3, by simp [h1, h2, h3, bind, Except.bind]⟩

theorem findRuleLoop_ok (canon : Char → Char) (message : Message) (rules : List Rule) (i : Nat)
    (h : ∀ r ∈ rules, ∃ b, ruleVote canon message r false = .ok b) :
    ∃ result, findRuleLoop canon message rules i false = .ok result := by
  induction rules generalizing i with
  | nil => exact ⟨none, rfl⟩
  | cons r rest ih =>
    obtain ⟨b, hb⟩ := h r (List.mem_cons_self r rest)
    unfold findRuleLoop
    cases b with
    | true => exact ⟨some (r, i), by simp [hb]⟩
    | false =>
      obtain ⟨result, hres⟩ := ih (i + 1) (fun r' hr' => h r' (List.mem_cons_of_mem r hr'))
      exact ⟨result, by simp [hb, hres]⟩

theorem findRuleLoop_finds (canon : Char → Char) (message : Message) (rules : List Rule)
    (h : ∀ r ∈ rules, ∃ b, ruleVote canon message r false = .ok b)
    (hq : ∃ r ∈ rules, r.qualifies canon message) :
    ∃ rule j, findRuleLoop canon message rules 0 false = .ok (some (rule, j)) := by
  obtain ⟨result, hres⟩ := findRuleLoop_ok canon message rules 0 h
  cases result with
  | some found => exact ⟨found.1, found.2, hres⟩
  | none =>
    obtain ⟨r, hr, hqr⟩ := hq
    have := findRuleLoop_ok_none canon message rules 0 hres r hr
    unfold Rule.qualifies at hqr
    rw [this] at hqr
    simp at hqr

/-- The rule that `createDefaultRule` hands to `createRule`. -/
theorem createDefaultRule_eq (st : State) (message : Message)
    (hm : message.hasStringHeaders = true)
    (hinbox : message.folder.type ≠ some "inbox".toList)
    (htrash : message.folder.type ≠ some "trash".toList) :
    createDefaultRule st message =
      .ok ((createRule st
          ⟨some (lastAddress message.author.text), some (lastAddress message.recipients.text),
            some message.subject.text, some true, none, none, some message.folder⟩).1,
        some (createRule st
          ⟨some (lastAddress message.author.text), some (lastAddress message.recipients.text),
            some message.subject.text, some true, none, none, some message.folder⟩).2) := by
  simp only [Message.hasStringHeaders, Bool.and_eq_true] at hm
  obtain ⟨⟨hauthor, hsubject⟩, hrecipients⟩ := hm
  unfold createDefaultRule
  rw [if_neg hinbox, if_neg htrash, getMessageHeaderValue_author message hauthor,
    getMessageHeaderValue_recipients message hrecipients,
    getMessageHeaderValue_subject message hsubject]
  rfl

/-- The vote of the learned rule on its own message: the flags `activeTo` and
`activeSubject` are those that `defaultRule` had before the call. -/
theorem ruleVote_learned (canon : Char → Char) (message : Message)
    (activeTo activeSubject : Option Bool) (folder : Option Folder)
    (hm : message.hasStringHeaders = true) (b : Bool)
    (hb : message.recipients.first.map Option.isSome = .ok b) :
    ruleVote canon message
        ⟨some (lastAddress message.author.text), some (lastAddress message.recipients.text),
          some message.subject.text, some true, activeTo, activeSubject, folder⟩ false =
      .ok (if truthy activeSubject then true else if truthy activeTo then b else true) := by
  simp only [Message.hasStringHeaders, Bool.and_eq_true] at hm
  obtain ⟨⟨hauthor, hsubject⟩, hrecipients⟩ := hm
  unfold ruleVote
  simp only
  rw [voteStep_self canon (some true) _ _ false _ _ rfl
      (getMessageHeaderValue_author message hauthor)]
  simp only [bind, Except.bind]
  rw [voteStep_self canon activeTo _ _ _ b _ hb
      (getMessageHeaderValue_recipients message hrecipients)]
  simp only
  rw [voteStep_self canon activeSubject _ _ _ _ _ rfl
      (getMessageHeaderValue_subject message hsubject)]
  simp only [hauthor, hsubject]
  have ht : truthy (some true) = true := rfl
  rw [ht]
  by_cases hs : truthy activeSubject = true
  · simp [hs]
  · by_cases hto : truthy activeTo = true
    · simp [hs, hto]
    · simp [hs, hto]

theorem findRule_fst (canon : Char → Char) (st : State) (message : Message) :
    (findRule canon st message).1 = initRules st := by
  unfold findRule
  cases h : findRuleLoop canon message (initRules st).rules 0 false <;> simp only [h]

/-- What holds of the claim on the code.  When the rules of the store have
string patterns, the message has string headers and a folder that is neither
the inbox nor the trash, and `defaultRule` has `activeSubject` set, or has
`activeTo` not set, or the recipients have a first element that is a string,
then `createDefaultRule` returns an index, `findRule` of the same message
returns a rule, and `handleMovedMessages` of the same message leaves the stored
list as it is. -/
theorem createDefaultRule_rule_found (canon : Char → Char) (st : State) (message : Message)
    (hrules : ∀ r ∈ (initRules st).rules, r.hasStringPatterns = true)
    (hm : message.hasStringHeaders = true)
    (hinbox : message.folder.type ≠ some "inbox".toList)
    (htrash : message.folder.type ≠ some "trash".toList)
    (hflags : truthy st.defaultRule.activeSubject = true ∨
      truthy st.defaultRule.activeTo = false ∨
      message.recipients.first.map Option.isSome = .ok true) :
    ∃ st' index, createDefaultRule st message = .ok (st', some index) ∧
      (∃ rule j, (findRule canon st' message).2 = some (rule, j)) ∧
      (handleMovedMessages canon st' [message]).map (fun s => s.storage) = .ok st'.storage := by
  have hm' := hm
  simp only [Message.hasStringHeaders, Bool.and_eq_true] at hm'
  obtain ⟨b, hb⟩ := recipients_first_ok message hm'.2
  refine ⟨_, _, createDefaultRule_eq st message hm hinbox htrash, ?_⟩
  obtain ⟨_, hstorage, _, _⟩ := createRule_stored st
    ⟨some (lastAddress message.author.text), some (lastAddress message.recipients.text),
      some message.subject.text, some true, none, none, some message.folder⟩
  have hnew : assignDefined st.defaultRule
      ⟨some (lastAddress message.author.text), some (lastAddress message.recipients.text),
        some message.subject.text, some true, none, none, some message.folder⟩ =
      ⟨some (lastAddress message.author.text), some (lastAddress message.recipients.text),
        some message.subject.text, some true, st.defaultRule.activeTo,
        st.defaultRule.activeSubject, some message.folder⟩ := by
    simp [assignDefined]
  rw [hnew] at hstorage
  generalize (createRule st
      ⟨some (lastAddress message.author.text), some (lastAddress message.recipients.text),
        some message.subject.text, some true, none, none, some message.folder⟩).1 = st'
    at hstorage ⊢
  have hloaded : (initRules st').rules = (initRules st).rules ++
      [⟨some (lastAddress message.author.text), some (lastAddress message.recipients.text),
        some message.subject.text, some true, st.defaultRule.activeTo,
        st.defaultRule.activeSubject, some message.folder⟩] := by
    rw [initRules_eq st']
    unfold loadRules
    rw [hstorage]
  have hvote := ruleVote_learned canon message st.defaultRule.activeTo
    st.defaultRule.activeSubject (some message.folder) hm b hb
  have hqual : Rule.qualifies canon message
      ⟨some (lastAddress message.author.text), some (lastAddress message.recipients.text),
        some message.subject.text, some true, st.defaultRule.activeTo,
        st.defaultRule.activeSubject, some message.folder⟩ := by
    unfold Rule.qualifies
    rw [hvote]
    rcases hflags with h | h | h
    · simp [h]
    · by_cases hs : truthy st.defaultRule.activeSubject = true
      · simp [hs]
      · simp [hs, h]
    · rw [hb] at h
      have hbt : b = true := by simpa using h
      by_cases hs : truthy st.defaultRule.activeSubject = true
      · simp [hs]
      · simp [hs, hbt]
  have hall : ∀ r ∈ (initRules st').rules, ∃ b, ruleVote canon message r false = .ok b := by
    intro r hr
    rw [hloaded, List.mem_append, List.mem_singleton] at hr
    rcases hr with hr | hr
    · exact ruleVote_ok canon message r false hm (hrules r hr)
    · rw [hr]
      exact ⟨true, hqual⟩
  obtain ⟨rule, j, hfound⟩ := findRuleLoop_finds canon message (initRules st').rules hall
    ⟨_, by rw [hloaded]; exact List.mem_append_right _ (List.mem_singleton.mpr rfl), hqual⟩
  have hsnd := findRule_snd_of_ok canon st' message _ hfound
  refine ⟨⟨rule, j, hsnd⟩, ?_⟩
  simp only [handleMovedMessages, hsnd, findRule_fst, Except.map, initRules_eq,
    loadRules_storage]

/-- In the state with the stale `activeTo`, a message whose recipients are an
array is covered by the rule learned from it. -/
theorem createDefaultRule_rule_found_witness :
    ∃ st' index, createDefaultRule stateAfterUpdate messageFromAlice = .ok (st', some index) ∧
      (∃ rule j, (findRule asciiCanon st' messageFromAlice).2 = some (rule, j)) ∧
      (handleMovedMessages asciiCanon st' [messageFromAlice]).map (fun s => s.storage) =
        .ok st'.storage :=
  createDefaultRule_rule_found asciiCanon stateAfterUpdate messageFromAlice (by decide)
    (by decide) (by decide) (by decide) (Or.inr (Or.inr (by decide)))

/-- C11: a learned rule need not cover the message it was learned from.  After
`updateRule(0, ruleBob)`, which leaves `activeTo` set in `defaultRule`, the rule
that `createDefaultRule` stores for the message from `dave@z.org`, whose
recipients value is the empty string, has `activeTo` set; the step for the
recipient clears `match`, `findRule` returns `false`, and
`handleMovedMessages` stores a second rule for the same message.  The store
and the message are as the claim asks. -/
theorem createDefaultRule_rule_not_found :
    updateRule (State.initial (some [ruleAlice])) 0 ruleBob = some (stateAfterUpdate, 0) ∧
    (∀ r ∈ (initRules stateAfterUpdate).rules, r.hasStringPatterns = true) ∧
    messageFromDave.hasStringHeaders = true ∧
    messageFromDave.folder.type = none ∧
    (createDefaultRule stateAfterUpdate messageFromDave).map
        (fun created => (created.2, (findRule asciiCanon created.1 messageFromDave).2)) =
      .ok (some 1, none) ∧
    (handleMovedMessages asciiCanon stateAfterUpdate [messageFromDave, messageFromDave]).map
        (fun s => s.storage.map List.length) = .ok (some 3) ∧
    findMatch asciiCanon (some (lastAddress messageFromDave.author.text))
        (some (lastAddress messageFromDave.author.text)) = .ok true := by
  decide

end QuickArchiver
